import Mathlib

/-
Verification of the KodeKloud RAG demos: the intentionally degraded
retrieval system (rag_system.py + rag-evaluator.py) and the hybrid
lexical scorer (RAG_search/hybrid_search.py).

Modelling conventions:
* Python strings are `String` / `List Char`; `text[i:j]` is drop/take.
* Python float arithmetic is idealised as exact `ℚ` arithmetic, except
  where a claim hinges on binary64 rounding, for which an explicit
  round-to-nearest-even model `fl` is provided.
* External libraries (sentence-transformers, ChromaDB, the numpy RNG,
  hashlib, os.path, sklearn/rank_bm25) are opaque: they appear as
  fields of an environment structure, and theorems quantify over the
  environment, adding only the contracts those libraries guarantee.
-/

/-- Python `range(0, stop, step)` for a positive step: the start
positions `0, step, 2*step, ...` strictly below `stop`. -/
def pyRange0 (stop step : ℕ) : List ℕ :=
  List.range' 0 ((stop + step - 1) / step) step

/-- RAGSystem.chunk_text: fixed window of `chunk_size` characters moved
in steps of 100; the chunk starting at `i` is `text[i : i + chunk_size]`. -/
def chunk_text (text : List Char) (chunk_size : ℕ) : List (List Char) :=
  let step := 100
  (pyRange0 text.length step).map (fun i => (text.drop i).take chunk_size)

/-- State of the numpy global random generator, abstract. -/
abbrev RNGState := ℕ

/-- A value stored in a ChromaDB metadata dict. -/
inductive MetaVal where
  | str (s : String)
  | nat (n : ℕ)
deriving DecidableEq, Repr

/-- A Python metadata dict, as an association list; `[]` is the empty dict. -/
abbrev MetaDict := List (String × MetaVal)

/-- One formatted entry of the list RAGSystem.search returns. -/
structure SearchResult where
  content : String
  metadata : MetaDict
  distance : ℚ
deriving DecidableEq, Repr

/-- The reply of collection.query: one inner list per query embedding.
A falsy value (Python None or an empty list) is modelled by `[]`,
which is all the source code ever distinguishes. -/
structure QueryReply where
  documents : List (List String)
  metadatas : List (List MetaDict)
  distances : List (List ℚ)
deriving DecidableEq, Repr

/-- The opaque external services rag_system.py calls: the sentence
transformer, the numpy RNG, the ChromaDB collection (with its stored
contents fixed), hashlib.md5 hex digests and os.path.basename. -/
structure Env where
  encode : String → List ℚ
  seed : ℕ → RNGState
  normal : RNGState → ℚ → ℚ → ℕ → List ℚ × RNGState
  query : List ℚ → ℕ → QueryReply
  md5hex : String → String
  basename : String → String

/-- The result-formatting loop at the end of RAGSystem.search: iterate
over documents[0], defaulting metadata to the empty dict and distance
to 0 when the store returned a falsy field. -/
def formatResults (r : QueryReply) : List SearchResult :=
  match r.documents with
  | [] => []
  | docs0 :: _ =>
    (List.range docs0.length).map (fun i =>
      { content := docs0.getD i "",
        metadata := if r.metadatas.isEmpty then [] else (r.metadatas.headD []).getD i [],
        distance := if r.distances.isEmpty then 0 else (r.distances.headD []).getD i 0 })

/-- The noise drawn in RAGSystem.search: np.random.seed(42) followed by
np.random.normal(0, 0.15, query_embedding.shape); returns the sample
and the RNG state left behind. -/
def noiseVec (env : Env) (q : String) : List ℚ × RNGState :=
  env.normal (env.seed 42) 0 (15/100) (env.encode q).length

/-- The perturbed embedding RAGSystem.search hands to collection.query:
query_embedding = model.encode(query) + noise, elementwise. -/
def searchQueryEmbedding (env : Env) (q : String) : List ℚ :=
  List.zipWith (fun a b => a + b) (env.encode q) (noiseVec env q).1

/-- RAGSystem.search: encode the query, re-seed the global RNG with 42,
add normal(0, 0.15) noise, query the collection with n_results
hard-coded to 1 (the n_results parameter is never read), and format.
The incoming RNG state is the numpy global state at call time; the
returned state is what the call leaves behind. -/
def search (env : Env) (rng : RNGState) (q : String) (n_results : ℕ) :
    List SearchResult × RNGState :=
  (formatResults (env.query (searchQueryEmbedding env q) 1), (noiseVec env q).2)

/-- Python str.lower for the ASCII strings used here, as a char list. -/
def lowerChars (s : String) : List Char :=
  s.toList.map Char.toLower

/-- Boolean prefix test on char lists. -/
def isPrefixB : List Char → List Char → Bool
  | [], _ => true
  | _ :: _, [] => false
  | a :: as, b :: bs => a == b && isPrefixB as bs

/-- Python substring containment `sub in l` on char lists. -/
def containsSub (sub l : List Char) : Bool :=
  match l with
  | [] => isPrefixB sub []
  | _ :: ls => isPrefixB sub l || containsSub sub ls

/-- One entry of RAGEvaluator test cases. -/
structure TestCase where
  query : String
  expected_terms : List String
  must_have_all : List String
deriving DecidableEq, Repr

/-- RAGEvaluator._define_test_cases: the fixed list of 11 test cases. -/
def test_cases : List TestCase :=
  [ { query := "What are the S3 encryption requirements?",
      expected_terms := ["S3", "encryption", "AES-256", "KMS"],
      must_have_all := ["S3", "encryption"] },
    { query := "What is policy AWS-POL-S3-001?",
      expected_terms := ["AWS-POL-S3-001", "S3", "encryption"],
      must_have_all := ["AWS-POL-S3-001"] },
    { query := "EC2 instance tagging requirements",
      expected_terms := ["EC2", "tag", "Environment", "Owner"],
      must_have_all := ["EC2", "tag"] },
    { query := "CloudTrail logging configuration",
      expected_terms := ["CloudTrail", "logging", "audit"],
      must_have_all := ["CloudTrail", "logging"] },
    { query := "VPC security group rules",
      expected_terms := ["VPC", "security", "group", "rules"],
      must_have_all := ["VPC", "security"] },
    { query := "IAM password policy minimum length",
      expected_terms := ["IAM", "password", "minimum", "length", "14"],
      must_have_all := ["password", "14"] },
    { query := "RDS encryption at rest requirements",
      expected_terms := ["RDS", "encryption", "rest", "KMS"],
      must_have_all := ["RDS", "encryption"] },
    { query := "Lambda function timeout limits",
      expected_terms := ["Lambda", "timeout", "900", "seconds"],
      must_have_all := ["Lambda", "timeout"] },
    { query := "EBS volume encryption policy",
      expected_terms := ["EBS", "volume", "encryption", "required"],
      must_have_all := ["EBS", "encryption"] },
    { query := "CloudWatch log retention period",
      expected_terms := ["CloudWatch", "log", "retention", "days"],
      must_have_all := ["CloudWatch", "retention"] },
    { query := "AWS-POL-EC2-002 compliance details",
      expected_terms := ["AWS-POL-EC2-002", "EC2", "compliance"],
      must_have_all := ["AWS-POL-EC2-002"] } ]

/-- The strict per-result check of RAGEvaluator.test_accuracy: every
must_have_all term occurs, lower-cased, in this single result. -/
def resultPasses (must : List String) (r : SearchResult) : Bool :=
  must.all (fun term => containsSub (lowerChars term) (lowerChars r.content))

/-- The per-test-case loop body of test_accuracy: found becomes true
when some one returned result contains all required terms. -/
def casePasses (results : List SearchResult) (tc : TestCase) : Bool :=
  results.any (fun r => resultPasses tc.must_have_all r)

/-- One iteration of the test_accuracy loop: run the search for this
test case (threading the numpy global RNG state) and bump the correct
counter when the strict check passes. -/
def runCase (env : Env) (n_results : ℕ) (acc : ℕ × RNGState) (tc : TestCase) :
    ℕ × RNGState :=
  let res := search env acc.2 tc.query n_results
  (acc.1 + (if casePasses res.1 tc then 1 else 0), res.2)

/-- RAGEvaluator.test_accuracy: loop over the test cases counting the
strict passes, then return (correct / total) * 100, together with the
RNG state after the loop.  Real arithmetic is idealised as ℚ. -/
def test_accuracy (env : Env) (rng : RNGState) (n_results : ℕ) : ℚ × RNGState :=
  let folded := test_cases.foldl (runCase env n_results) (0, rng)
  (((folded.1 : ℚ) / (test_cases.length : ℚ)) * 100, folded.2)

/-- The number of test cases the strict check passes for, stated
directly as a count over the test-case list. -/
def numCorrect (env : Env) (rng : RNGState) (n_results : ℕ) : ℕ :=
  test_cases.countP (fun tc => casePasses (search env rng tc.query n_results).1 tc)

/-- Python int() on a rational: truncation toward zero. -/
def pyInt (q : ℚ) : ℤ :=
  if 0 ≤ q then ⌊q⌋ else ⌈q⌉

/-- The dictionary RAGEvaluator.run_evaluation returns. -/
structure EvalReport where
  accuracy : ℚ
  target : ℕ
  gap : ℚ
  total_tests : ℕ
  passed : ℤ
deriving DecidableEq, Repr

/-- RAGEvaluator.run_evaluation: call test_accuracy (with its default
n_results = 2) and assemble the report dictionary.  Real arithmetic is
idealised as ℚ; see accuracyFloat and passedFloat for the binary64
refinement of the passed field. -/
def run_evaluation (env : Env) (rng : RNGState) : EvalReport × RNGState :=
  let acc := test_accuracy env rng 2
  ({ accuracy := acc.1,
     target := 90,
     gap := 90 - acc.1,
     total_tests := test_cases.length,
     passed := pyInt (acc.1 * (test_cases.length : ℚ) / 100) }, acc.2)

/-- Round a rational to the nearest integer, ties to even. -/
def rne (r : ℚ) : ℤ :=
  let n := ⌊r⌋
  let f := r - (n : ℚ)
  if f < 1/2 then n
  else if 1/2 < f then n + 1
  else if n % 2 = 0 then n else n + 1

/-- The floor of log base 2 of a positive rational. -/
def ratLog2 (a : ℚ) : ℤ :=
  let e0 : ℤ := (Nat.log2 a.num.natAbs : ℤ) - (Nat.log2 a.den : ℤ)
  if (2 : ℚ) ^ (e0 + 1) ≤ a then e0 + 1
  else if (2 : ℚ) ^ e0 ≤ a then e0
  else e0 - 1

/-- IEEE binary64 rounding (round to nearest, ties to even) of a
rational in the normal range; overflow and subnormals are not modelled
since every value in this development is far inside the normal range. -/
def fl (q : ℚ) : ℚ :=
  if q = 0 then 0
  else
    let s : ℚ := if q < 0 then -1 else 1
    let a := |q|
    let e := ratLog2 a
    s * (rne (a * (2 : ℚ) ^ ((52 : ℤ) - e)) : ℚ) * (2 : ℚ) ^ (e - (52 : ℤ))

/-- The accuracy value test_accuracy computes, with every Python float
operation rounded to binary64: accuracy = (correct / total) * 100. -/
def accuracyFloat (correct total : ℕ) : ℚ :=
  fl (fl ((correct : ℚ) / (total : ℚ)) * 100)

/-- The passed field run_evaluation computes, with every Python float
operation rounded to binary64: int(accuracy * total_tests / 100). -/
def passedFloat (correct total : ℕ) : ℤ :=
  pyInt (fl (fl (accuracyFloat correct total * (total : ℚ)) / 100))

/-- One input file for RAGSystem.process_documents: its path and the
content read from it (glob and file IO are left outside the model). -/
structure PyFile where
  path : String
  content : String
deriving DecidableEq, Repr

/-- The argument lists of one collection.add call. -/
structure AddCall where
  documents : List (List Char)
  embeddings : List (List ℚ)
  ids : List String
  metadatas : List MetaDict
deriving Repr

/-- The per-chunk rows process_documents accumulates for one file:
chunk text, embedding, md5 id and metadata, in chunk order. -/
def fileRows (env : Env) (f : PyFile) : List (List Char × List ℚ × String × MetaDict) :=
  (chunk_text f.content.toList 120).enum.map (fun p =>
    (p.2,
     env.encode (String.mk p.2),
     env.md5hex (f.path ++ "_" ++ toString p.1 ++ "_" ++ String.mk (p.2.take 50)),
     [("source", MetaVal.str (env.basename f.path)), ("chunk_index", MetaVal.nat p.1)]))

/-- RAGSystem.process_documents: chunk every file at chunk_size 120,
embed each chunk and record its id and metadata, then issue a single
collection.add call with the accumulated lists, or no call at all when
no chunks were produced.  The returned list is the list of add calls
made. -/
def process_documents (env : Env) (files : List PyFile) : List AddCall :=
  let rows := files.flatMap (fileRows env)
  if rows.isEmpty then []
  else [{ documents := rows.map (fun r => r.1),
          embeddings := rows.map (fun r => r.2.1),
          ids := rows.map (fun r => r.2.2.1),
          metadatas := rows.map (fun r => r.2.2.2) }]

/-- The collection contents as a list of rows; collection.add appends. -/
def applyAdds (st : List (List Char × List ℚ × String × MetaDict))
    (calls : List AddCall) : List (List Char × List ℚ × String × MetaDict) :=
  calls.foldl (fun s c => s ++ (c.documents.zip (c.embeddings.zip (c.ids.zip c.metadatas)))) st

/-- Python regex class \s: ASCII whitespace. -/
def isSpaceChar (c : Char) : Bool :=
  c.toNat = 32 || c.toNat = 9 || c.toNat = 10 || c.toNat = 13 || c.toNat = 11 || c.toNat = 12

/-- Python str.split() with no argument: split on whitespace runs,
discarding empty pieces. -/
def splitWs (l : List Char) : List String :=
  (l.foldr
    (fun c acc =>
      if isSpaceChar c then [] :: acc
      else
        match acc with
        | [] => [[c]]
        | w :: ws => (c :: w) :: ws)
    []).filterMap (fun w => if w.isEmpty then none else some (String.mk w))

/-- The tokenisation in hybrid_search.py:
re.sub removes every character outside [a-zA-Z\s] from the lower-cased
text, then str.split() cuts it at whitespace. -/
def tokenize (s : String) : List String :=
  splitWs ((s.toList.map Char.toLower).filter (fun c => c.isAlpha || isSpaceChar c))

/-- The opaque external scorers hybrid_search.py calls: the fitted
TfidfVectorizer cosine similarities against the query, and
BM25Okapi.get_scores on the tokenised corpus. -/
structure LexEnv where
  tfidfScores : String → List String → List ℚ
  bm25Scores : List (List String) → List String → List ℚ

/-- numpy ndarray.max on the nonempty score arrays used here. -/
def maxList : List ℚ → ℚ
  | [] => 0
  | x :: xs => xs.foldl max x

/-- The raw BM25 score array of hybrid_search.py:
BM25Okapi(tokenized_docs).get_scores(tokenized_query). -/
def bm25Raw (env : LexEnv) (query : String) (docs : List String) : List ℚ :=
  env.bm25Scores (docs.map (fun d => tokenize d)) (tokenize query)

/-- The BM25 normalisation step of hybrid_search.py: divide by the
maximum score when that maximum is positive, leave raw otherwise. -/
def bm25Normalized (env : LexEnv) (query : String) (docs : List String) : List ℚ :=
  let m := maxList (bm25Raw env query docs)
  if 0 < m then (bm25Raw env query docs).map (fun x => x / m) else bm25Raw env query docs

/-- hybrid_search: take the TF-IDF cosine scores and the BM25 scores,
normalise the BM25 scores by their maximum when it is positive, and
return (tfidf_scores, bm25_scores, tfidf_weight * tfidf_scores +
bm25_weight * bm25_scores) with the arithmetic elementwise. -/
def hybrid_search (env : LexEnv) (query : String) (docs : List String)
    (tfidf_weight bm25_weight : ℚ) : List ℚ × List ℚ × List ℚ :=
  let tfidf_scores := env.tfidfScores query docs
  let bm25_scores := bm25Normalized env query docs
  let hybrid_scores :=
    List.zipWith (fun t b => tfidf_weight * t + bm25_weight * b) tfidf_scores bm25_scores
  (tfidf_scores, bm25_scores, hybrid_scores)

/-- The single document returned by the store in the concrete test
environment below; it satisfies the strict check of exactly three of
the eleven test cases (S3 encryption, CloudTrail logging, VPC security). -/
def exDocs : List String :=
  ["s3 encryption cloudtrail logging vpc security"]

/-- Metadata rows matching exDocs in the concrete test environment. -/
def exMetas : List MetaDict :=
  [[("source", MetaVal.str "doc.md"), ("chunk_index", MetaVal.nat 0)]]

/-- Distance rows matching exDocs in the concrete test environment. -/
def exDists : List ℚ :=
  [2]

/-- A concrete environment used to instantiate theorems: the encoder
returns a fixed 2-vector, the RNG returns a constant nonzero sample and
steps its state, and the store returns the first min(n, 1) rows of the
fixed document list whatever the embedding is. -/
def exEnv : Env where
  encode := fun _ => [1, 2]
  seed := fun n => n
  normal := fun st _ _ n => (List.replicate n 1, st + 1)
  query := fun _ k =>
    { documents := [exDocs.take k], metadatas := [exMetas.take k], distances := [exDists.take k] }
  md5hex := fun s => s
  basename := fun s => s

/-- A concrete lexical environment used to instantiate theorems. -/
def exLexEnv : LexEnv where
  tfidfScores := fun _ docs => docs.map (fun _ => 1/2)
  bm25Scores := fun tdocs _ => tdocs.map (fun t => (t.length : ℚ))

theorem chunk_text_length (t : List Char) (cs : ℕ) :
    (chunk_text t cs).length = (t.length + 99) / 100 := by
  simp only [chunk_text, pyRange0, List.length_map, List.length_range']
  congr 1

theorem chunk_text_getD (t : List Char) (cs k : ℕ)
    (hk : k < (chunk_text t cs).length) :
    (chunk_text t cs).getD k [] = (t.drop (100 * k)).take cs := by
  rw [chunk_text_length] at hk
  simp only [chunk_text, pyRange0]
  rw [List.getD_eq_getElem?_getD, List.getElem?_map, List.getElem?_range' _ _ (by omega : k < (t.length + 100 - 1) / 100)]
  simp

theorem chunk_text_getD_length (t : List Char) (cs k : ℕ)
    (hk : k < (chunk_text t cs).length) :
    ((chunk_text t cs).getD k []).length = min cs (t.length - 100 * k) := by
  rw [chunk_text_getD t cs k hk]
  simp [List.length_take, List.length_drop]

/-- C1 counterexample: on the one-character input "a" with the default
chunk_size 120, chunk_text returns a chunk of length 1, so it is false
that every returned chunk has exactly chunk_size characters. -/
theorem C1_counterexample :
    ¬ (∀ c ∈ chunk_text "a".toList 120, c.length = 120) := by
  decide

/-- C1 (amended): chunk_text is a fixed-step chunker: it returns the
windows text[i : i + chunk_size] for the start positions i = 0, 100,
200, ... below the length of text, so consecutive chunk start positions
are exactly 100 characters apart; a chunk has length
min chunk_size (len - start), hence exactly chunk_size characters
whenever its window fits, and with the default size 120 a full chunk
shares its last 20 characters with the first 20 of the next chunk. -/
theorem C1_fixed_step_chunker (text : List Char) (chunk_size : ℕ) :
    chunk_text text chunk_size =
      (List.range' 0 ((text.length + 99) / 100) 100).map
        (fun i => (text.drop i).take chunk_size)
    ∧ (∀ k, k < (chunk_text text chunk_size).length →
        (chunk_text text chunk_size).getD k [] = (text.drop (100 * k)).take chunk_size)
    ∧ (∀ k, k < (chunk_text text chunk_size).length →
        ((chunk_text text chunk_size).getD k []).length =
          min chunk_size (text.length - 100 * k))
    ∧ (∀ k, k < (chunk_text text chunk_size).length →
        100 * k + chunk_size ≤ text.length →
        ((chunk_text text chunk_size).getD k []).length = chunk_size)
    ∧ (∀ k, 100 * k + 120 ≤ text.length →
        List.drop 100 ((chunk_text text 120).getD k []) =
          List.take 20 ((chunk_text text 120).getD (k + 1) [])
        ∧ (List.drop 100 ((chunk_text text 120).getD k [])).length = 20) := by
  refine ⟨?_, chunk_text_getD text chunk_size, chunk_text_getD_length text chunk_size,
    ?_, ?_⟩
  · simp only [chunk_text, pyRange0]
    congr 2
  · intro k hk hfit
    rw [chunk_text_getD_length text chunk_size k hk]
    omega
  · intro k hk
    have hklt : k < (chunk_text text 120).length := by
      rw [chunk_text_length]; omega
    have hk1lt : k + 1 < (chunk_text text 120).length := by
      rw [chunk_text_length]; omega
    rw [chunk_text_getD text 120 k hklt, chunk_text_getD text 120 (k + 1) hk1lt]
    constructor
    · rw [List.drop_take, List.drop_drop, List.take_take]
      norm_num
      rw [show 100 * k + 100 = 100 * (k + 1) by omega]
    · simp only [List.length_drop, List.length_take, List.length_drop]
      omega

/-- C1 witness: the amended theorem evaluated on a concrete input. -/
theorem C1_fixed_step_chunker_witness :
    (chunk_text "abc".toList 120).getD 0 [] = ("abc".toList.drop (100 * 0)).take 120 :=
  (C1_fixed_step_chunker "abc".toList 120).2.1 0 (by decide)

/-- C10: for chunk sizes at least the step (the code uses 120),
chunk_text terminates and returns exactly ceil(len / 100) chunks, the
empty list exactly for the empty input; every chunk is a contiguous
substring of the input, every character position is covered by at
least one chunk, and the final chunk has length
min chunk_size (len - 100 * (number_of_chunks - 1)). -/
theorem C10_chunker_total_covering (text : List Char) (chunk_size : ℕ)
    (hcs : 100 ≤ chunk_size) :
    (chunk_text text chunk_size).length = (text.length + 99) / 100
    ∧ (chunk_text text chunk_size = [] ↔ text = [])
    ∧ (∀ c ∈ chunk_text text chunk_size, c <:+: text)
    ∧ (∀ p, p < text.length → ∃ k, k < (chunk_text text chunk_size).length ∧
        100 * k ≤ p ∧ p < 100 * k + ((chunk_text text chunk_size).getD k []).length)
    ∧ (text ≠ [] →
        Option.map List.length (chunk_text text chunk_size).getLast? =
          some (min chunk_size (text.length - 100 * ((text.length + 99) / 100 - 1)))) := by
  refine ⟨chunk_text_length text chunk_size, ?_, ?_, ?_, ?_⟩
  · rw [← List.length_eq_zero, ← List.length_eq_zero, chunk_text_length]
    omega
  · intro c hc
    simp only [chunk_text, pyRange0, List.mem_map] at hc
    obtain ⟨i, _, rfl⟩ := hc
    exact ⟨text.take i, (text.drop i).drop chunk_size, by
      rw [List.append_assoc, List.take_append_drop, List.take_append_drop]⟩
  · intro p hp
    have hdm := Nat.div_add_mod p 100
    have hmod : p % 100 < 100 := Nat.mod_lt p (by omega)
    refine ⟨p / 100, ?_, by omega, ?_⟩
    · rw [chunk_text_length]; omega
    · rw [chunk_text_getD_length text chunk_size (p / 100) (by rw [chunk_text_length]; omega)]
      omega
  · intro hne
    have hlen : text.length ≠ 0 := fun h => hne (List.length_eq_zero.mp h)
    have hnpos : 1 ≤ (chunk_text text chunk_size).length := by
      rw [chunk_text_length]; omega
    have h1 : (chunk_text text chunk_size).getLast? =
        some ((chunk_text text chunk_size).getD ((chunk_text text chunk_size).length - 1) []) := by
      rw [List.getLast?_eq_getElem?, List.getElem?_eq_getElem (by omega),
        List.getD_eq_getElem _ _ (by omega)]
    rw [h1, Option.map]
    rw [chunk_text_getD_length text chunk_size _ (by omega), chunk_text_length]

/-- C10 witness: the conclusion evaluated on a concrete input. -/
theorem C10_chunker_total_covering_witness :
    (chunk_text "ab".toList 120).length = ("ab".toList.length + 99) / 100 :=
  (C10_chunker_total_covering "ab".toList 120 (by norm_num)).1

theorem zipWith_add_ne_left (a b : List ℚ) (hlen : b.length = a.length)
    (hnz : ∃ x ∈ b, x ≠ 0) : List.zipWith (fun x y => x + y) a b ≠ a := by
  induction a generalizing b with
  | nil =>
    obtain ⟨x, hx, _⟩ := hnz
    rw [List.length_nil, List.length_eq_zero] at hlen
    subst hlen
    exact absurd hx (List.not_mem_nil x)
  | cons y as ih =>
    cases b with
    | nil =>
      obtain ⟨x, hx, _⟩ := hnz
      exact absurd hx (List.not_mem_nil x)
    | cons z bs =>
      intro heq
      simp only [List.zipWith, List.cons.injEq] at heq
      obtain ⟨h1, h2⟩ := heq
      obtain ⟨x, hx, hxne⟩ := hnz
      rcases List.mem_cons.mp hx with hxz | hxbs
      · exact hxne (by linarith [h1, hxz ▸ h1])
      · exact ih bs (by simpa using hlen) ⟨x, hxbs, hxne⟩ h2

/-- C2: RAGSystem.search perturbs the query embedding before querying
the vector store: the embedding handed to collection.query is
model.encode(query) plus the sample of np.random.normal(0, 0.15,
shape) drawn right after np.random.seed(42), and as long as that
sample has a nonzero entry (and the library returns a sample of the
requested shape), it is never the raw encoding of the query. -/
theorem C2_search_perturbs_query (env : Env) (q : String)
    (hlen : ((noiseVec env q).1).length = (env.encode q).length)
    (hnz : ∃ x ∈ (noiseVec env q).1, x ≠ 0) :
    (∀ rng n, (search env rng q n).1 =
        formatResults (env.query (searchQueryEmbedding env q) 1))
    ∧ searchQueryEmbedding env q =
        List.zipWith (fun a b => a + b) (env.encode q)
          ((env.normal (env.seed 42) 0 (15/100) (env.encode q).length).1)
    ∧ searchQueryEmbedding env q ≠ env.encode q := by
  exact ⟨fun _ _ => rfl, rfl, zipWith_add_ne_left (env.encode q) (noiseVec env q).1 hlen hnz⟩

/-- C2 witness: in a concrete environment whose RNG returns the
constant nonzero sample 1, the perturbed embedding differs from the
raw encoding. -/
theorem C2_search_perturbs_query_witness :
    searchQueryEmbedding exEnv "query" ≠ exEnv.encode "query" :=
  (C2_search_perturbs_query exEnv "query" (by rfl) (by decide)).2.2

/-- C9: RAGSystem.search is deterministic despite injecting noise: the
generator is re-seeded with 42 on every call, so whatever the numpy
global RNG state is when the call starts (in particular the state a
previous identical call left behind), the returned result list is the
same. -/
theorem C9_search_deterministic (env : Env) (q : String) (n : ℕ)
    (rng1 rng2 : RNGState) :
    search env rng1 q n = search env rng2 q n
    ∧ (search env (search env rng1 q n).2 q n).1 = (search env rng1 q n).1 :=
  ⟨rfl, rfl⟩

theorem formatResults_length (r : QueryReply) :
    (formatResults r).length = (r.documents.headD []).length := by
  rcases r with ⟨docs, metas, dists⟩
  cases docs <;> simp [formatResults]

/-- C4: the n_results parameter of RAGSystem.search is ignored: the
store is always queried with n_results hard-coded to 1, so for a store
that returns at most n documents when asked for n (the ChromaDB
contract), search returns a list with at most one element whatever
n_results was requested - including the 2 per query that
RAGEvaluator.test_accuracy requests. -/
theorem C4_n_results_ignored (env : Env) (rng : RNGState) (q : String)
    (hstore : ∀ e k, ((env.query e k).documents.headD []).length ≤ k) :
    (∀ n m, search env rng q n = search env rng q m)
    ∧ (∀ n, ((search env rng q n).1).length ≤ 1) := by
  refine ⟨fun n m => rfl, fun n => ?_⟩
  show (formatResults (env.query (searchQueryEmbedding env q) 1)).length ≤ 1
  rw [formatResults_length]
  exact hstore (searchQueryEmbedding env q) 1

/-- C4 witness: in the concrete environment, searching with
n_results = 2 still returns at most one result. -/
theorem C4_n_results_ignored_witness :
    ((search exEnv 0 "q" 2).1).length ≤ 1 :=
  (C4_n_results_ignored exEnv 0 "q"
    (fun e k => by
      simp only [exEnv, List.headD_cons, List.length_take]
      exact min_le_left k _)).2 2

theorem getD_map_range {α : Type} (f : ℕ → α) (k i : ℕ) (h : i < k) (d : α) :
    ((List.range k).map f).getD i d = f i := by
  rw [List.getD_eq_getElem?_getD, List.getElem?_map, List.getElem?_range h]
  rfl

/-- C5: RAGSystem.search does no ranking of its own: the list it
returns is exactly the documents of the collection.query reply, in the
same order, each reformatted into a record with content, metadata and
distance; metadata defaults to the empty dict and distance to 0 when
the store returns a falsy field, and the result is the empty list when
the store returns no documents. -/
theorem C5_search_reformats_store_reply (env : Env) (rng : RNGState) (q : String)
    (n : ℕ) (docs : List String) (metas : List MetaDict) (dists : List ℚ)
    (hq : env.query (searchQueryEmbedding env q) 1 =
      { documents := [docs], metadatas := [metas], distances := [dists] }) :
    ((search env rng q n).1).length = docs.length
    ∧ (∀ i, i < docs.length →
        ((search env rng q n).1).getD i { content := "", metadata := [], distance := 0 } =
          { content := docs.getD i "", metadata := metas.getD i [],
            distance := dists.getD i 0 })
    ∧ (∀ r : QueryReply, r.documents.headD [] = [] → formatResults r = [])
    ∧ (∀ ds : List String, formatResults
        { documents := [ds], metadatas := [], distances := [] } =
          (List.range ds.length).map (fun i =>
            { content := ds.getD i "", metadata := [], distance := 0 })) := by
  have hsearch : (search env rng q n).1 =
      formatResults (env.query (searchQueryEmbedding env q) 1) := rfl
  refine ⟨?_, ?_, ?_, ?_⟩
  · rw [hsearch, hq, formatResults_length]
    rfl
  · intro i hi
    rw [hsearch, hq]
    show ((List.range docs.length).map _).getD i _ = _
    rw [getD_map_range _ docs.length i hi]
    simp [List.headD]
  · intro r hr
    rcases r with ⟨rdocs, rmetas, rdists⟩
    cases rdocs with
    | nil => rfl
    | cons d0 rest =>
      simp only [List.headD_cons] at hr
      subst hr
      simp [formatResults]
  · intro ds
    simp [formatResults]

/-- C5 witness: in the concrete environment the search result list has
exactly as many entries as the store returned documents. -/
theorem C5_search_reformats_store_reply_witness :
    ((search exEnv 0 "q" 3).1).length = exDocs.length :=
  (C5_search_reformats_store_reply exEnv 0 "q" 3 exDocs exMetas exDists (by rfl)).1

theorem foldl_runCase_fst (env : Env) (n : ℕ) (l : List TestCase) (c : ℕ)
    (rng rng0 : RNGState) :
    (l.foldl (runCase env n) (c, rng)).1 =
      c + l.countP (fun tc => casePasses (search env rng0 tc.query n).1 tc) := by
  induction l generalizing c rng with
  | nil => simp
  | cons tc ts ih =>
    rw [List.foldl_cons, List.countP_cons]
    show (ts.foldl (runCase env n)
      (c + (if casePasses (search env rng tc.query n).1 tc then 1 else 0),
        (search env rng tc.query n).2)).1 = _
    rw [ih]
    have hsame : casePasses (search env rng tc.query n).1 tc =
        casePasses (search env rng0 tc.query n).1 tc := rfl
    rw [hsame]
    cases casePasses (search env rng0 tc.query n).1 tc <;> simp <;> omega

/-- C3: RAGEvaluator.test_accuracy is a strict term-overlap scorer: a
test case counts as correct exactly when some one returned result
contains, case-insensitively, every term of its must_have_all list
(terms spread over different results do not count), and the returned
accuracy is 100 times the number of correct cases divided by the
number of test cases. -/
theorem C3_strict_term_overlap_scoring (env : Env) (rng : RNGState) (n : ℕ) :
    (test_accuracy env rng n).1 =
      100 * (numCorrect env rng n : ℚ) / (test_cases.length : ℚ)
    ∧ (∀ results tc, casePasses results tc = true ↔
        ∃ r ∈ results, ∀ term ∈ tc.must_have_all,
          containsSub (lowerChars term) (lowerChars r.content) = true) := by
  constructor
  · show ((test_cases.foldl (runCase env n) (0, rng)).1 : ℚ) / (test_cases.length : ℚ) * 100 = _
    rw [foldl_runCase_fst env n test_cases 0 rng rng]
    show (((0 + numCorrect env rng n : ℕ) : ℚ)) / _ * 100 = _
    push_cast
    ring
  · intro results tc
    simp [casePasses, resultPasses, List.any_eq_true, List.all_eq_true]

/-- C3 witness: the accuracy formula evaluated in the concrete
environment. -/
theorem C3_strict_term_overlap_scoring_witness :
    (test_accuracy exEnv 0 2).1 =
      100 * (numCorrect exEnv 0 2 : ℚ) / (test_cases.length : ℚ) :=
  (C3_strict_term_overlap_scoring exEnv 0 2).1

theorem enum_map_snd_comp {α β : Type} (l : List α) (g : α → β) :
    l.enum.map (fun p => g p.2) = l.map g := by
  rw [show (fun p : ℕ × α => g p.2) = g ∘ Prod.snd from rfl, ← List.map_map,
    List.enum_map_snd]

theorem fileRows_eq_nil_iff (env : Env) (f : PyFile) :
    fileRows env f = [] ↔ chunk_text f.content.toList 120 = [] := by
  simp [fileRows]

/-- C6: RAGSystem.process_documents goes chunk, then embed, then
store: every file is split with chunk_text at chunk_size 120, each
chunk gets one embedding, an md5 id and metadata (source = basename of
the file, chunk_index = position), and a single collection.add call
carries all accumulated lists after every file was processed; when no
chunks were produced no add call is made and the collection is
unchanged. -/
theorem C6_process_documents_single_batched_add (env : Env) (files : List PyFile) :
    (process_documents env files).length ≤ 1
    ∧ (process_documents env files = [] ↔
        ∀ f ∈ files, chunk_text f.content.toList 120 = [])
    ∧ (∀ call ∈ process_documents env files,
        call.documents = files.flatMap (fun f => chunk_text f.content.toList 120)
        ∧ call.embeddings = files.flatMap (fun f =>
            (chunk_text f.content.toList 120).map (fun c => env.encode (String.mk c)))
        ∧ call.ids = files.flatMap (fun f =>
            (chunk_text f.content.toList 120).enum.map (fun p =>
              env.md5hex (f.path ++ "_" ++ toString p.1 ++ "_" ++ String.mk (p.2.take 50))))
        ∧ call.metadatas = files.flatMap (fun f =>
            (chunk_text f.content.toList 120).enum.map (fun p =>
              [("source", MetaVal.str (env.basename f.path)),
               ("chunk_index", MetaVal.nat p.1)])))
    ∧ (process_documents env files = [] →
        ∀ st, applyAdds st (process_documents env files) = st) := by
  refine ⟨?_, ?_, ?_, ?_⟩
  · simp only [process_documents]
    split <;> simp
  · simp only [process_documents]
    split
    · rename_i hrows
      simp only [List.isEmpty_iff, List.flatMap_eq_nil_iff] at hrows
      simp only [true_iff]
      intro f hf
      exact (fileRows_eq_nil_iff env f).mp (hrows f hf)
    · rename_i hrows
      simp only [List.isEmpty_iff, List.flatMap_eq_nil_iff] at hrows
      constructor
      · intro h
        simp at h
      · intro h
        exact absurd (fun f hf => (fileRows_eq_nil_iff env f).mpr (h f hf)) hrows
  · intro call hcall
    by_cases hrows : files.flatMap (fileRows env) = []
    · simp [process_documents, hrows] at hcall
    · have hne : (files.flatMap (fileRows env)).isEmpty = false := by
        simpa [List.isEmpty_iff] using hrows
      simp only [process_documents, hne, Bool.false_eq_true, if_false] at hcall
      rcases List.mem_singleton.mp hcall with rfl
      refine ⟨?_, ?_, ?_, ?_⟩
      · show List.map (fun r => r.1) (files.flatMap (fileRows env)) = _
        rw [List.map_flatMap]
        congr 1
        funext f
        rw [fileRows, List.map_map]
        exact List.enum_map_snd _
      · show List.map (fun r => r.2.1) (files.flatMap (fileRows env)) = _
        rw [List.map_flatMap]
        congr 1
        funext f
        rw [fileRows, List.map_map]
        exact enum_map_snd_comp _ (fun c => env.encode (String.mk c))
      · show List.map (fun r => r.2.2.1) (files.flatMap (fileRows env)) = _
        rw [List.map_flatMap]
        congr 1
        funext f
        rw [fileRows, List.map_map]
        rfl
      · show List.map (fun r => r.2.2.2) (files.flatMap (fileRows env)) = _
        rw [List.map_flatMap]
        congr 1
        funext f
        rw [fileRows, List.map_map]
        rfl
  · intro h st
    rw [h]
    rfl

/-- C6 witness: with no input files, no add call is made. -/
theorem C6_process_documents_single_batched_add_witness :
    process_documents exEnv [] = [] :=
  ((C6_process_documents_single_batched_add exEnv []).2.1).mpr (by simp)

theorem getD_zipWith (f : ℚ → ℚ → ℚ) (a : List ℚ) (b : List ℚ) (i : ℕ)
    (ha : i < a.length) (hb : i < b.length) (d : ℚ) :
    (List.zipWith f a b).getD i d = f (a.getD i d) (b.getD i d) := by
  rw [List.getD_eq_getElem _ _ (by rw [List.length_zipWith]; omega),
    List.getD_eq_getElem _ _ ha, List.getD_eq_getElem _ _ hb, List.getElem_zipWith]

theorem getD_map_lt (f : ℚ → ℚ) (l : List ℚ) (i : ℕ) (h : i < l.length) (d : ℚ) :
    (l.map f).getD i d = f (l.getD i d) := by
  rw [List.getD_eq_getElem _ _ (by rw [List.length_map]; omega),
    List.getD_eq_getElem _ _ h, List.getElem_map]

theorem foldl_max_init_le (xs : List ℚ) (a : ℚ) : a ≤ xs.foldl max a := by
  induction xs generalizing a with
  | nil => exact le_refl a
  | cons y ys ih => exact le_trans (le_max_left a y) (ih (max a y))

theorem mem_le_foldl_max (xs : List ℚ) (a : ℚ) : ∀ x ∈ xs, x ≤ xs.foldl max a := by
  induction xs generalizing a with
  | nil => intro x hx; exact absurd hx (List.not_mem_nil x)
  | cons y ys ih =>
    intro x hx
    rcases List.mem_cons.mp hx with rfl | hmem
    · exact le_trans (le_max_right a x) (foldl_max_init_le ys (max a x))
    · exact ih (max a y) x hmem

theorem mem_le_maxList (l : List ℚ) : ∀ x ∈ l, x ≤ maxList l := by
  cases l with
  | nil => intro x hx; exact absurd hx (List.not_mem_nil x)
  | cons y ys =>
    intro x hx
    rcases List.mem_cons.mp hx with rfl | hmem
    · exact foldl_max_init_le ys x
    · exact mem_le_foldl_max ys y x hmem

/-- C8: hybrid_search combines the lexical scores elementwise: the
hybrid score of document i is tfidf_weight times its TF-IDF cosine
score plus bm25_weight times its BM25 score divided by the maximum
BM25 score when that maximum is positive (the raw BM25 score
otherwise); when the maximum is positive every normalised BM25
component lies between 0 and 1.  The hypotheses are the library
contracts: one score per document from each scorer, and the
nonnegative scores BM25Okapi guarantees. -/
theorem C8_hybrid_score_combination (env : LexEnv) (query : String)
    (docs : List String) (tfidf_weight bm25_weight : ℚ)
    (hlt : (env.tfidfScores query docs).length = docs.length)
    (hlb : (bm25Raw env query docs).length = docs.length)
    (hnn : ∀ s ∈ bm25Raw env query docs, 0 ≤ s)
    (hne : docs ≠ []) :
    (∀ i, i < docs.length →
      ((hybrid_search env query docs tfidf_weight bm25_weight).2.2).getD i 0 =
        tfidf_weight * (env.tfidfScores query docs).getD i 0 +
        bm25_weight * (if 0 < maxList (bm25Raw env query docs)
          then (bm25Raw env query docs).getD i 0 / maxList (bm25Raw env query docs)
          else (bm25Raw env query docs).getD i 0))
    ∧ (0 < maxList (bm25Raw env query docs) →
        ∀ s ∈ (hybrid_search env query docs tfidf_weight bm25_weight).2.1,
          0 ≤ s ∧ s ≤ 1) := by
  constructor
  · intro i hi
    have hlenN : (bm25Normalized env query docs).length = docs.length := by
      rw [bm25Normalized]
      split
      · rw [List.length_map]; exact hlb
      · exact hlb
    show (List.zipWith _ (env.tfidfScores query docs) (bm25Normalized env query docs)).getD i 0 = _
    rw [getD_zipWith _ _ _ i (by omega) (by omega)]
    congr 1
    rw [bm25Normalized]
    split
    · rw [getD_map_lt _ _ i (by omega)]
    · rfl
  · intro hpos s hs
    have hsN : s ∈ bm25Normalized env query docs := hs
    rw [bm25Normalized, if_pos hpos] at hsN
    obtain ⟨x, hx, rfl⟩ := List.mem_map.mp hsN
    constructor
    · exact div_nonneg (hnn x hx) (le_of_lt hpos)
    · rw [div_le_one hpos]
      exact mem_le_maxList _ x hx

/-- C8 witness: the combination formula evaluated in a concrete
lexical environment at document index 0. -/
theorem C8_hybrid_score_combination_witness :
    ((hybrid_search exLexEnv "c" ["ab c", "d"] (3/10) (7/10)).2.2).getD 0 0 =
      (3/10) * (exLexEnv.tfidfScores "c" ["ab c", "d"]).getD 0 0 +
      (7/10) * (if 0 < maxList (bm25Raw exLexEnv "c" ["ab c", "d"])
        then (bm25Raw exLexEnv "c" ["ab c", "d"]).getD 0 0 /
          maxList (bm25Raw exLexEnv "c" ["ab c", "d"])
        else (bm25Raw exLexEnv "c" ["ab c", "d"]).getD 0 0) :=
  (C8_hybrid_score_combination exLexEnv "c" ["ab c", "d"] (3/10) (7/10)
    (by rfl) (by rfl) (by norm_num [bm25Raw, exLexEnv])
    (by simp)).1 0 (by norm_num)

theorem ratLog2_unique (q : ℚ) (e : ℤ) (h1 : (2:ℚ) ^ e ≤ q)
    (h2 : q < (2:ℚ) ^ (e + 1)) : ratLog2 q = e := by
  have hq : 0 < q := lt_of_lt_of_le (zpow_pos (by norm_num) e) h1
  have hnum : 0 < q.num := Rat.num_pos.mpr hq
  have hp0 : q.num.natAbs ≠ 0 := Int.natAbs_ne_zero.mpr hnum.ne'
  have hd0 : q.den ≠ 0 := (Rat.den_pos q).ne'
  have f1 : (2:ℚ) ^ (Nat.log2 q.num.natAbs : ℤ) ≤ (q.num.natAbs : ℚ) := by
    rw [zpow_natCast]
    exact_mod_cast Nat.log2_self_le hp0
  have f2 : (q.num.natAbs : ℚ) < (2:ℚ) ^ ((Nat.log2 q.num.natAbs : ℤ) + 1) := by
    rw [show (Nat.log2 q.num.natAbs : ℤ) + 1 = ((Nat.log2 q.num.natAbs + 1 : ℕ) : ℤ) by
      push_cast; ring, zpow_natCast]
    exact_mod_cast Nat.lt_log2_self
  have f3 : (2:ℚ) ^ (Nat.log2 q.den : ℤ) ≤ (q.den : ℚ) := by
    rw [zpow_natCast]
    exact_mod_cast Nat.log2_self_le hd0
  have f4 : (q.den : ℚ) < (2:ℚ) ^ ((Nat.log2 q.den : ℤ) + 1) := by
    rw [show (Nat.log2 q.den : ℤ) + 1 = ((Nat.log2 q.den + 1 : ℕ) : ℤ) by
      push_cast; ring, zpow_natCast]
    exact_mod_cast Nat.lt_log2_self
  have hqpd : q = (q.num.natAbs : ℚ) / (q.den : ℚ) := by
    rw [show ((q.num.natAbs : ℚ)) = ((q.num : ℚ)) from by
      rw [Int.cast_natAbs, abs_of_nonneg hnum.le]]
    exact (Rat.num_div_den q).symm
  set E : ℤ := (Nat.log2 q.num.natAbs : ℤ) - (Nat.log2 q.den : ℤ) with hE
  have upper : q < (2:ℚ) ^ (E + 1) := by
    rw [hqpd]
    calc (q.num.natAbs : ℚ) / (q.den : ℚ)
        < (2:ℚ) ^ ((Nat.log2 q.num.natAbs : ℤ) + 1) / (2:ℚ) ^ (Nat.log2 q.den : ℤ) :=
          div_lt_div₀ f2 f3 (by positivity) (by positivity)
      _ = (2:ℚ) ^ (E + 1) := by
          rw [← zpow_sub₀ (by norm_num : (2:ℚ) ≠ 0)]
          congr 1
          omega
  have lower : (2:ℚ) ^ (E - 1) ≤ q := by
    rw [hqpd]
    calc (2:ℚ) ^ (E - 1)
        = (2:ℚ) ^ (Nat.log2 q.num.natAbs : ℤ) / (2:ℚ) ^ ((Nat.log2 q.den : ℤ) + 1) := by
          rw [← zpow_sub₀ (by norm_num : (2:ℚ) ≠ 0)]
          congr 1
          omega
      _ ≤ (q.num.natAbs : ℚ) / (q.den : ℚ) :=
          div_le_div₀ (by positivity) f1 (by exact_mod_cast Rat.den_pos q) f4.le
  have huniq : ∀ r : ℤ, (2:ℚ) ^ r ≤ q → q < (2:ℚ) ^ (r + 1) → r = e := by
    intro r hr1 hr2
    have a1 : r < e + 1 :=
      (zpow_lt_zpow_iff_right₀ (by norm_num : (1:ℚ) < 2)).mp (lt_of_le_of_lt hr1 h2)
    have a2 : e < r + 1 :=
      (zpow_lt_zpow_iff_right₀ (by norm_num : (1:ℚ) < 2)).mp (lt_of_le_of_lt h1 hr2)
    omega
  simp only [ratLog2, ← hE]
  split_ifs with hc1 hc2
  · exact absurd hc1 (not_le.mpr upper)
  · exact huniq E hc2 (not_le.mp hc1)
  · refine huniq (E - 1) lower ?_
    rw [sub_add_cancel]
    exact not_le.mp hc2

theorem fl_eq_pos (q : ℚ) (e m : ℤ) (hq : 0 < q)
    (h1 : (2:ℚ) ^ e ≤ q) (h2 : q < (2:ℚ) ^ (e + 1))
    (hm : rne (q * (2:ℚ) ^ ((52:ℤ) - e)) = m) :
    fl q = (m : ℚ) * (2:ℚ) ^ (e - (52:ℤ)) := by
  have hs : ¬ q < 0 := not_lt.mpr hq.le
  simp only [fl, if_neg hq.ne', hs, if_false, abs_of_pos hq,
    ratLog2_unique q e h1 h2, hm, one_mul]

/-- C7: the passed field of the run_evaluation report, evaluated with
every Python float operation rounded to binary64: when 3 of the 11
test cases pass the strict check, accuracy * total_tests / 100 comes
out just below 3 and int() truncates it to 2, and likewise 6 passing
cases report passed = 5, while for example 5 passing cases report
passed = 5 correctly - so passed does not always equal the number of
passing cases as the claim requires. -/
theorem C7_passed_field_truncation :
    passedFloat 3 11 = 2 ∧ passedFloat 6 11 = 5 ∧ passedFloat 5 11 = 5 := by
  have c3s1 : fl ((((3:ℕ)):ℚ) / (((11:ℕ)):ℚ)) =
      (1228254443828317:ℚ)/4503599627370496 := by
    rw [show ((((3:ℕ)):ℚ) / (((11:ℕ)):ℚ)) = (3:ℚ)/11 by norm_num]
    rw [fl_eq_pos ((3:ℚ)/11) (-2) 4913017775313268 (by norm_num) (by norm_num)
      (by norm_num) (by norm_num [rne])]
    norm_num
  have c3s2 : fl ((1228254443828317:ℚ)/4503599627370496 * 100) =
      (7676590273926981:ℚ)/281474976710656 := by
    rw [fl_eq_pos _ 4 7676590273926981 (by norm_num) (by norm_num)
      (by norm_num) (by norm_num [rne])]
    norm_num
  have c3s3 : fl ((7676590273926981:ℚ)/281474976710656 * (((11:ℕ)):ℚ)) =
      (5277655813324799:ℚ)/17592186044416 := by
    rw [show ((((11:ℕ)):ℚ)) = (11:ℚ) by norm_num]
    rw [fl_eq_pos _ 8 5277655813324799 (by norm_num) (by norm_num)
      (by norm_num) (by norm_num [rne])]
    norm_num
  have c3s4 : fl ((5277655813324799:ℚ)/17592186044416 / 100) =
      (6755399441055743:ℚ)/2251799813685248 := by
    rw [fl_eq_pos _ 1 6755399441055743 (by norm_num) (by norm_num)
      (by norm_num) (by norm_num [rne])]
    norm_num
  have c6s1 : fl ((((6:ℕ)):ℚ) / (((11:ℕ)):ℚ)) =
      (1228254443828317:ℚ)/2251799813685248 := by
    rw [show ((((6:ℕ)):ℚ) / (((11:ℕ)):ℚ)) = (6:ℚ)/11 by norm_num]
    rw [fl_eq_pos ((6:ℚ)/11) (-1) 4913017775313268 (by norm_num) (by norm_num)
      (by norm_num) (by norm_num [rne])]
    norm_num
  have c6s2 : fl ((1228254443828317:ℚ)/2251799813685248 * 100) =
      (7676590273926981:ℚ)/140737488355328 := by
    rw [fl_eq_pos _ 5 7676590273926981 (by norm_num) (by norm_num)
      (by norm_num) (by norm_num [rne])]
    norm_num
  have c6s3 : fl ((7676590273926981:ℚ)/140737488355328 * (((11:ℕ)):ℚ)) =
      (5277655813324799:ℚ)/8796093022208 := by
    rw [show ((((11:ℕ)):ℚ)) = (11:ℚ) by norm_num]
    rw [fl_eq_pos _ 9 5277655813324799 (by norm_num) (by norm_num)
      (by norm_num) (by norm_num [rne])]
    norm_num
  have c6s4 : fl ((5277655813324799:ℚ)/8796093022208 / 100) =
      (6755399441055743:ℚ)/1125899906842624 := by
    rw [fl_eq_pos _ 2 6755399441055743 (by norm_num) (by norm_num)
      (by norm_num) (by norm_num [rne])]
    norm_num
  have c5s1 : fl ((((5:ℕ)):ℚ) / (((11:ℕ)):ℚ)) =
      (8188362958855447:ℚ)/18014398509481984 := by
    rw [show ((((5:ℕ)):ℚ) / (((11:ℕ)):ℚ)) = (5:ℚ)/11 by norm_num]
    rw [fl_eq_pos ((5:ℚ)/11) (-2) 8188362958855447 (by norm_num) (by norm_num)
      (by norm_num) (by norm_num [rne])]
    norm_num
  have c5s2 : fl ((8188362958855447:ℚ)/18014398509481984 * 100) =
      (3198579280802909:ℚ)/70368744177664 := by
    rw [fl_eq_pos _ 5 6397158561605818 (by norm_num) (by norm_num)
      (by norm_num) (by norm_num [rne])]
    norm_num
  have c5s3 : fl ((3198579280802909:ℚ)/70368744177664 * (((11:ℕ)):ℚ)) =
      (500:ℚ) := by
    rw [show ((((11:ℕ)):ℚ)) = (11:ℚ) by norm_num]
    rw [fl_eq_pos _ 8 8796093022208000 (by norm_num) (by norm_num)
      (by norm_num) (by norm_num [rne])]
    norm_num
  have c5s4 : fl ((500:ℚ) / 100) = (5:ℚ) := by
    rw [fl_eq_pos _ 2 5629499534213120 (by norm_num) (by norm_num)
      (by norm_num) (by norm_num [rne])]
    norm_num
  refine ⟨?_, ?_, ?_⟩
  · simp only [passedFloat, accuracyFloat]
    rw [c3s1, c3s2, c3s3, c3s4]
    simp only [pyInt]
    norm_num
  · simp only [passedFloat, accuracyFloat]
    rw [c6s1, c6s2, c6s3, c6s4]
    simp only [pyInt]
    norm_num
  · simp only [passedFloat, accuracyFloat]
    rw [c5s1, c5s2, c5s3, c5s4]
    simp only [pyInt]
    norm_num
